import Mathlib

/-!
# AutoScale Media Pipeline — formal model

Shallow embedding of `src/Lambdas/AutoScaleProcessor/lambda_function.py`
(the `lambda_handler` image-transcoding pipeline) in Lean 4, together with
theorems settling the specification claims.

Modelling conventions:
* Machine integers are `ℤ`/`ℕ`; Python float arithmetic in the metrics is
  modelled exactly over `ℚ` (the computation `round(x, 2)` is modelled as
  rounding `x * 100` to the nearest integer and dividing by 100).
* The external collaborators (S3 reads/writes, DynamoDB `put_item`, the PIL
  decoder and WEBP encoder, the clock and the uuid generator) are inputs of
  the run, packaged in an `Env` value; the storage writes the handler
  performs are recorded as an ordered `List Effect` trace.
* Exceptions are modelled with `Except String`: the handler returns the
  effect trace it had produced together with either `.ok 200`
  (the Python `{'statusCode': 200}`) or the propagated error.
-/

/-- A decoded, colour-normalised raster: the only attributes the pipeline
logic depends on are its pixel dimensions (PIL's `RGBA`/`P` → `RGB`
conversion at line 53–54 changes the mode, never the dimensions, so the
normalisation is absorbed into the decoder). -/
structure Img where
  width : ℤ
  height : ℤ
  deriving DecidableEq, Repr

/-- The destination bucket constant of the source (line 14). -/
def DEST_BUCKET : String := "autoscaler-optimized-images-202512252014"

/-- The three fixed responsive sizes, in the source's insertion order
(lines 17–21): Python 3.7+ dicts iterate in insertion order. -/
def SIZES : List (String × ℤ × ℤ) :=
  [("thumbnails", 150, 150), ("medium", 800, 800), ("large", 1920, 1920)]

/-- `round(x, 2)` of the source's metrics arithmetic, over `ℚ`:
round `x * 100` to the nearest integer (Mathlib's `round`) and divide by
100.  (Python's float `round` breaks exact ties to even; no claim in this
development depends on a tie.) -/
def round2 (q : ℚ) : ℚ := ((round (q * 100) : ℤ) : ℚ) / 100

/-- Python `str.split('.')[0]` (line 49): the characters of `s` strictly
before its first `'.'`, the whole string when no dot occurs. -/
def splitDotHead (s : String) : String :=
  String.mk (s.toList.takeWhile (fun c => c ≠ '.'))

/-- Modelled from the spec: "the source file identifier with its extension
removed" of the output-key convention — everything before the LAST dot
(the whole name when there is no dot).  This is the spec's reading of
`file_id`, kept separate so it can be compared with the source's
`splitDotHead`. -/
def stripExtension (s : String) : String :=
  if '.' ∈ s.toList then
    String.mk (((s.toList.reverse.dropWhile (fun c => c ≠ '.')).drop 1).reverse)
  else s

/-- Python `int(s)` on a string (line 38): optional surrounding whitespace,
an optional sign, then a non-empty run of decimal digits; anything else
raises `ValueError`, modelled as `none`.  (PEP-515 underscore grouping is
not modelled; no metadata in any claim uses it.) -/
def pyInt (s : String) : Option ℤ :=
  let cs := ((s.toList.dropWhile Char.isWhitespace).reverse.dropWhile
      Char.isWhitespace).reverse
  match cs with
  | [] => none
  | c :: rest =>
    let signed : ℤ × List Char :=
      if c = '-' then (-1, rest) else if c = '+' then (1, rest) else (1, cs)
    if signed.2 ≠ [] ∧ signed.2.all Char.isDigit then
      some (signed.1 *
        ((signed.2.foldl (fun a d => a * 10 + (d.toNat - '0'.toNat)) 0 : ℕ) : ℤ))
    else none

/-- The Python exceptions the modelled pipeline can raise. -/
inductive PyErr where
  /-- `ValueError: invalid literal for int() with base 10: ...` from
  `int()` at line 38, carrying the offending literal. -/
  | valueError (literal : String)
  /-- `PIL.UnidentifiedImageError` from `Image.open` at line 51. -/
  | unidentifiedImage
  /-- `ZeroDivisionError` from the savings division at line 88. -/
  | zeroDivision
  deriving DecidableEq, Repr

/-- Line 38, `int(metadata.get('quality', 80))`: an absent key yields the
integer default 80 (`int` of an `int` is the identity); a present value is
parsed by Python `int`, whose failure is a `ValueError` that the handler's
`except` block re-raises. -/
def resolveQuality (md : List (String × String)) : Except PyErr ℤ :=
  match md.lookup "quality" with
  | none => Except.ok 80
  | some s =>
    match pyInt s with
    | some n => Except.ok n
    | none => Except.error (PyErr.valueError s)

/-- Python `str.lower()`: lower-case each character. -/
def pyLower (s : String) : String := String.mk (s.toList.map Char.toLower)

/-- Line 41, `metadata.get('keep-original', 'false').lower() == 'true'`. -/
def resolveKeepOriginal (md : List (String × String)) : Bool :=
  pyLower ((md.lookup "keep-original").getD "false") == "true"

/-- Line 34/35, `metadata.get(key, default)`. -/
def lookupD (md : List (String × String)) (k v : String) : String :=
  (md.lookup k).getD v

/-- PIL `Image.thumbnail`'s `round_aspect` helper: of `⌊number⌋` and
`⌈number⌉` pick the one with the smaller `key` (Python `min` keeps the
first argument on a tie), then clamp below by 1. -/
def round_aspect (number : ℚ) (key : ℤ → ℚ) : ℤ :=
  max (if key ⌊number⌋ ≤ key ⌈number⌉ then ⌊number⌋ else ⌈number⌉) 1

/-- Modelled from the spec (and PIL's documented behaviour): the
`Image.thumbnail((x, y))` size computation used at line 59 — PIL itself is
a third-party library absent from `src/`.  A box at least as large as the
source in both dimensions leaves the image untouched; otherwise the
bounding dimension is kept and the other is rounded to best preserve the
source aspect ratio `w / h`, never below 1.  Float arithmetic is modelled
exactly over `ℚ`. -/
def thumbnail (w h x y : ℤ) : ℤ × ℤ :=
  if w ≤ x ∧ h ≤ y then (w, h)
  else if (w : ℚ) / h ≤ (x : ℚ) / y then
    (round_aspect ((y : ℚ) * ((w : ℚ) / h))
      (fun n => |(w : ℚ) / h - (n : ℚ) / y|), y)
  else
    (x, round_aspect ((x : ℚ) / ((w : ℚ) / h))
      (fun n => if n = 0 then 0 else |(w : ℚ) / h - (x : ℚ) / n|))

/-- The DynamoDB item assembled at lines 91–104.  `savings_percent` is
persisted by the source as the decimal string `f"{savings}%"`; the numeric
payload of that string is kept here as the exact rational. -/
structure UsageRecord where
  image_id : String
  user_id : String
  user_role : String
  file_name : String
  quality_used : ℤ
  original_size_kb : ℚ
  total_output_kb : ℚ
  savings_percent : ℚ
  processing_time_ms : ℚ
  timestamp : ℚ
  deriving DecidableEq, Repr

/-- One storage side effect of a run, in the order performed:
`s3.put_object` (lines 66–71, 80–85) or the DynamoDB `table.put_item`
(lines 91–104). -/
inductive Effect where
  | putObject (bucket key : String) (body : List ℕ) (contentType : String)
  | putRecord (item : UsageRecord)
  deriving DecidableEq, Repr

/-- The environment of one run: the triggering key, the upload metadata
returned by `head_object`, the raw source bytes returned by `get_object`,
and the external collaborators — the PIL decoder (returning `none` where
`Image.open` raises), the WEBP encoder as a function of the resized
dimensions and the quality (the source image being fixed for the run), the
uuid and the two clock readings. -/
structure Env where
  key : String
  metadata : List (String × String)
  payload : List ℕ
  decode : List ℕ → Option Img
  encode : ℤ → ℤ → ℤ → List ℕ
  imageId : String
  elapsedMs : ℚ
  timestamp : ℚ

/-- The `for size_name, dimensions in SIZES.items()` loop (lines 57–71):
running totals of `total_output_size` and of the effect trace, in
iteration order. -/
def processSizes (env : Env) (quality : ℤ) (img : Img) (file_id : String) :
    ℕ × List Effect :=
  SIZES.foldl
    (fun acc entry =>
      let dims := thumbnail img.width img.height entry.2.1 entry.2.2
      let output_bytes := env.encode dims.1 dims.2 quality
      (acc.1 + output_bytes.length,
        acc.2 ++ [Effect.putObject DEST_BUCKET
          (entry.1 ++ "/" ++ file_id ++ ".webp") output_bytes "image/webp"]))
    (0, [])

/-- Lines 23–110, `lambda_handler`: the whole pipeline of one run.  Returns
the ordered trace of storage writes performed before returning or raising,
together with the outcome — `.ok 200` for the final
`return {'statusCode': 200}`, `.error` for an exception the `except` block
re-raises (lines 106–108 print and `raise e`; nothing is swallowed). -/
def lambda_handler (env : Env) : List Effect × Except PyErr ℕ :=
  let metadata := env.metadata
  let user_id := lookupD metadata "userid" "anonymous_user"
  let user_role := lookupD metadata "userrole" "guest"
  match resolveQuality metadata with
  | Except.error e => ([], Except.error e)
  | Except.ok custom_quality =>
    let keep_original_res := resolveKeepOriginal metadata
    let original_data := env.payload
    let original_size := original_data.length
    let file_id := splitDotHead env.key
    match env.decode original_data with
    | none => ([], Except.error PyErr.unidentifiedImage)
    | some img =>
      let sized := processSizes env custom_quality img file_id
      let afterOrig :=
        if keep_original_res then
          let orig_optimized := env.encode img.width img.height custom_quality
          (sized.1 + orig_optimized.length,
            sized.2 ++ [Effect.putObject DEST_BUCKET
              ("original_res/" ++ file_id ++ ".webp") orig_optimized "image/webp"])
        else sized
      let total_output_size := afterOrig.1
      let effects := afterOrig.2
      if original_size = 0 then
        (effects, Except.error PyErr.zeroDivision)
      else
        let savings := round2
          ((((original_size : ℚ) - (total_output_size : ℚ)) / (original_size : ℚ)) * 100)
        let duration := round2 env.elapsedMs
        let item : UsageRecord :=
          { image_id := env.imageId
            user_id := user_id
            user_role := user_role
            file_name := env.key
            quality_used := custom_quality
            original_size_kb := round2 ((original_size : ℚ) / 1024)
            total_output_kb := round2 ((total_output_size : ℚ) / 1024)
            savings_percent := savings
            processing_time_ms := duration
            timestamp := env.timestamp }
        (effects ++ [Effect.putRecord item], Except.ok 200)

/-- The `put_object` effects of a trace, in order. -/
def variantPuts (tr : List Effect) : List Effect :=
  tr.filter (fun e => match e with
    | Effect.putObject _ _ _ _ => true
    | Effect.putRecord _ => false)

/-- The destination keys of the `put_object` effects of a trace, in order. -/
def effectKeys (tr : List Effect) : List String :=
  tr.filterMap (fun e => match e with
    | Effect.putObject _ k _ _ => some k
    | Effect.putRecord _ => none)

/-- The byte length each `put_object` effect wrote, in order. -/
def effectSizes (tr : List Effect) : List ℕ :=
  tr.filterMap (fun e => match e with
    | Effect.putObject _ _ b _ => some b.length
    | Effect.putRecord _ => none)

/-- The exact sum of the byte lengths of all variants written in a trace. -/
def sumBytes (tr : List Effect) : ℕ := (effectSizes tr).sum

/-- The usage records appended in a trace, in order. -/
def recordsOf (tr : List Effect) : List UsageRecord :=
  tr.filterMap (fun e => match e with
    | Effect.putObject _ _ _ _ => none
    | Effect.putRecord r => some r)

/-- The resized dimensions the loop computes for one bounding box
(line 59). -/
def stdDims (img : Img) (bw bh : ℤ) : ℤ × ℤ := thumbnail img.width img.height bw bh

/-- The encoded bytes of one standard variant (line 62). -/
def stdBody (env : Env) (q : ℤ) (img : Img) (bw bh : ℤ) : List ℕ :=
  env.encode (stdDims img bw bh).1 (stdDims img bw bh).2 q

/-- The `put_object` effect of one standard variant (lines 66–71). -/
def stdPut (env : Env) (q : ℤ) (img : Img) (name : String) (bw bh : ℤ) : Effect :=
  Effect.putObject DEST_BUCKET (name ++ "/" ++ splitDotHead env.key ++ ".webp")
    (stdBody env q img bw bh) "image/webp"

/-- The three standard variant writes of a run, in loop order. -/
def stdEffects (env : Env) (q : ℤ) (img : Img) : List Effect :=
  [stdPut env q img "thumbnails" 150 150,
   stdPut env q img "medium" 800 800,
   stdPut env q img "large" 1920 1920]

/-- The encoded bytes of the optional full-resolution variant (line 76). -/
def origBody (env : Env) (q : ℤ) (img : Img) : List ℕ :=
  env.encode img.width img.height q

/-- The `put_object` effect of the optional `original_res` variant
(lines 80–85). -/
def origEffect (env : Env) (q : ℤ) (img : Img) : Effect :=
  Effect.putObject DEST_BUCKET ("original_res/" ++ splitDotHead env.key ++ ".webp")
    (origBody env q img) "image/webp"

/-- All variant writes of a run, in the order performed. -/
def runEffects (env : Env) (q : ℤ) (img : Img) : List Effect :=
  stdEffects env q img ++
    (if resolveKeepOriginal env.metadata then [origEffect env q img] else [])

/-- `total_output_size` after the three standard variants (line 65). -/
def stdTotal (env : Env) (q : ℤ) (img : Img) : ℕ :=
  (stdBody env q img 150 150).length + (stdBody env q img 800 800).length +
    (stdBody env q img 1920 1920).length

/-- `total_output_size` at line 88: the three standard variants plus, when
kept, the full-resolution one. -/
def runTotal (env : Env) (q : ℤ) (img : Img) : ℕ :=
  if resolveKeepOriginal env.metadata then stdTotal env q img + (origBody env q img).length
  else stdTotal env q img

/-- The usage record a successful run appends (lines 88–104). -/
def theRecord (env : Env) (q : ℤ) (img : Img) : UsageRecord :=
  { image_id := env.imageId
    user_id := lookupD env.metadata "userid" "anonymous_user"
    user_role := lookupD env.metadata "userrole" "guest"
    file_name := env.key
    quality_used := q
    original_size_kb := round2 ((env.payload.length : ℚ) / 1024)
    total_output_kb := round2 ((runTotal env q img : ℚ) / 1024)
    savings_percent := round2
      ((((env.payload.length : ℚ) - (runTotal env q img : ℚ)) / (env.payload.length : ℚ)) * 100)
    processing_time_ms := round2 env.elapsedMs
    timestamp := env.timestamp }

/-! ## Concrete collaborators and runs used by witnesses and
counterexamples -/

/-- A fixed decoded raster used by concrete runs. -/
def demoImg : Img := ⟨1024, 768⟩

/-- A concrete decoder: fails on an empty payload (as `Image.open` does on
zero bytes, which cannot carry an image header), decodes anything else. -/
def demoDecode : List ℕ → Option Img :=
  fun bs => if bs.length = 0 then none else some demoImg

/-- A concrete encoder producing a fixed 3-byte WEBP payload. -/
def demoEncode : ℤ → ℤ → ℤ → List ℕ := fun _ _ _ => [82, 73, 70]

/-- The run whose upload metadata carries `quality = "abc"`. -/
def envC2 : Env :=
  { key := "photo.png"
    metadata := [("quality", "abc")]
    payload := [1, 2, 3]
    decode := demoDecode
    encode := demoEncode
    imageId := "c2-id"
    elapsedMs := 5
    timestamp := 0 }

/-- The concrete run for the C1 witness: no metadata, so quality defaults
to 80 and keep-original resolves false. -/
def envC1 : Env :=
  { key := "holiday.jpg"
    metadata := []
    payload := [1, 2, 3]
    decode := demoDecode
    encode := demoEncode
    imageId := "c1-id"
    elapsedMs := 2
    timestamp := 7 }

/-- The concrete run for the C10 witness (keep-original on). -/
def envC10 : Env :=
  { key := "w.png"
    metadata := [("keep-original", "true")]
    payload := [5]
    decode := demoDecode
    encode := demoEncode
    imageId := "c10-id"
    elapsedMs := 3
    timestamp := 1 }

/-- The concrete run for the C3 witness. -/
def envC3 : Env :=
  { key := "pic.png"
    metadata := [("keep-original", "TRUE"), ("quality", "90")]
    payload := [1, 2, 3, 4]
    decode := demoDecode
    encode := demoEncode
    imageId := "c3-id"
    elapsedMs := 4
    timestamp := 2 }

/-- The unrounded savings percentage of line 88,
`((original_size - total_output_size) / original_size) * 100`. -/
def savingsPct (orig total : ℚ) : ℚ := ((orig - total) / orig) * 100

/-- The concrete run for the C4 witness. -/
def envC4w : Env :=
  { key := "s.png"
    metadata := []
    payload := [7, 7]
    decode := demoDecode
    encode := demoEncode
    imageId := "c4w-id"
    elapsedMs := 1
    timestamp := 0 }

/-- The run refuting the claimed biconditionals: payload of 20003 bytes,
three standard variants of 6668 bytes each (20004 output bytes in
total). -/
def envC4 : Env :=
  { key := "big.png"
    metadata := []
    payload := List.replicate 20003 0
    decode := fun _ => some ⟨100, 100⟩
    encode := fun _ _ _ => List.replicate 6668 0
    imageId := "c4-id"
    elapsedMs := 9
    timestamp := 3 }

/-- The run refuting the claimed key convention: a source key with two
dots. -/
def envC6 : Env :=
  { key := "a.b.png"
    metadata := []
    payload := [1]
    decode := demoDecode
    encode := demoEncode
    imageId := "c6-id"
    elapsedMs := 0
    timestamp := 0 }

lemma processSizes_eq (env : Env) (q : ℤ) (img : Img) :
    processSizes env q img (splitDotHead env.key) =
      (stdTotal env q img,
       [stdPut env q img "thumbnails" 150 150,
        stdPut env q img "medium" 800 800,
        stdPut env q img "large" 1920 1920]) := by
  simp [processSizes, SIZES, stdTotal, stdPut, stdBody, stdDims]

/-- Evaluation of the whole handler once the option resolution and the
decode are known: the run performs the variant writes, then either fails
on the zero-divisor guard or appends the usage record and succeeds. -/
lemma lambda_handler_eq (env : Env) (q : ℤ) (img : Img)
    (hq : resolveQuality env.metadata = Except.ok q)
    (hd : env.decode env.payload = some img) :
    lambda_handler env =
      if env.payload.length = 0 then
        (runEffects env q img, Except.error PyErr.zeroDivision)
      else
        (runEffects env q img ++ [Effect.putRecord (theRecord env q img)],
         Except.ok 200) := by
  by_cases hk : resolveKeepOriginal env.metadata <;>
    by_cases h0 : env.payload.length = 0 <;>
      simp [lambda_handler, hq, hd, hk, h0, processSizes_eq, runEffects, runTotal,
        theRecord, origEffect, origBody, stdEffects, Nat.add_assoc]

/-- A successful outcome implies the quality resolved, the source decoded
and the payload was non-empty. -/
lemma handler_ok_inv (env : Env) (tr : List Effect) (n : ℕ)
    (h : lambda_handler env = (tr, (Except.ok n : Except PyErr ℕ))) :
    ∃ q img, resolveQuality env.metadata = Except.ok q ∧
      env.decode env.payload = some img ∧ env.payload.length ≠ 0 := by
  cases hrq : resolveQuality env.metadata with
  | error e => simp [lambda_handler, hrq] at h
  | ok q =>
    cases hd : env.decode env.payload with
    | none => simp [lambda_handler, hrq, hd] at h
    | some img =>
      refine ⟨q, img, rfl, rfl, ?_⟩
      intro h0
      rw [lambda_handler_eq env q img hrq hd, if_pos h0] at h
      simp at h

example : splitDotHead "a.b.png" = "a" := by decide
example : stripExtension "a.b.png" = "a.b" := by decide
example : stripExtension "photo" = "photo" := by decide
example : pyInt "abc" = none := by decide
example : pyInt " 95 " = some 95 := by decide
example : pyInt "-7" = some (-7) := by decide
example : resolveKeepOriginal [("keep-original", "TrUe")] = true := by decide
example : resolveKeepOriginal [] = false := by decide

/-! ## C2 — malformed quality metadata -/

/-- C2, counterexample: with quality metadata `"abc"` the run does NOT
fall back to the default 80 — `int("abc")` raises `ValueError`, the
`except` block re-raises it, and the invocation fails having produced
nothing.  This refutes the claim that such a run completes as if quality
had been absent. -/
theorem c2_counterexample :
    lambda_handler envC2 = ([], Except.error (PyErr.valueError "abc")) := by
  rfl

/-- C2, amended: a present but non-numeric quality value is a fatal
`ValueError` that aborts the run before any output is produced; only an
ABSENT quality key falls back to the default 80. -/
theorem c2_amended_quality_fallback (env : Env) (s : String)
    (h1 : env.metadata.lookup "quality" = some s) (h2 : pyInt s = none) :
    lambda_handler env = ([], Except.error (PyErr.valueError s)) ∧
      (∀ md : List (String × String), md.lookup "quality" = none →
        resolveQuality md = Except.ok 80) := by
  constructor
  · simp [lambda_handler, resolveQuality, h1, h2]
  · intro md hmd
    simp [resolveQuality, hmd]

/-- C2 witness: the amended theorem applied at the concrete run `envC2`. -/
theorem c2_amended_quality_fallback_witness :
    lambda_handler envC2 = ([], Except.error (PyErr.valueError "abc")) ∧
      (∀ md : List (String × String), md.lookup "quality" = none →
        resolveQuality md = Except.ok 80) :=
  c2_amended_quality_fallback envC2 "abc" rfl rfl

/-! ## C8 — the keep-original flag -/

/-- C8: the resolution-preservation flag resolves to `true` exactly when
the `keep-original` metadata value lower-cases to the literal `"true"`;
in particular an absent key resolves to `false`. -/
theorem c8_keep_original_iff (md : List (String × String)) :
    (resolveKeepOriginal md = true ↔
      ∃ v, md.lookup "keep-original" = some v ∧ pyLower v = "true") ∧
    (md.lookup "keep-original" = none → resolveKeepOriginal md = false) := by
  constructor
  · cases h : md.lookup "keep-original" with
    | none =>
      simp only [resolveKeepOriginal, h, Option.getD_none, Option.getD_some]
      constructor
      · intro hfalse
        exact absurd hfalse (by decide)
      · rintro ⟨v, hv, -⟩
        exact absurd hv (by simp)
    | some v =>
      simp only [resolveKeepOriginal, h, Option.getD_some, beq_iff_eq]
      constructor
      · intro hv
        exact ⟨v, rfl, hv⟩
      · rintro ⟨v', hv', hlow⟩
        injection hv' with hvv
        rw [hvv]
        exact hlow
  · intro h
    simp only [resolveKeepOriginal, h, Option.getD_none]
    decide

/-- C8 witness: the theorem applied at the concrete metadata mapping
`[("keep-original", "TRUE")]`. -/
theorem c8_keep_original_iff_witness :
    (resolveKeepOriginal [("keep-original", "TRUE")] = true ↔
      ∃ v, ([("keep-original", "TRUE")] : List (String × String)).lookup
        "keep-original" = some v ∧ pyLower v = "true") ∧
    (([("keep-original", "TRUE")] : List (String × String)).lookup
        "keep-original" = none →
      resolveKeepOriginal [("keep-original", "TRUE")] = false) :=
  c8_keep_original_iff [("keep-original", "TRUE")]

/-! ## Trace lemmas -/

/-- The option resolver can only raise `ValueError`. -/
lemma resolveQuality_error (md : List (String × String)) (e : PyErr)
    (h : resolveQuality md = Except.error e) : ∃ s, e = PyErr.valueError s := by
  unfold resolveQuality at h
  cases hl : md.lookup "quality" with
  | none => simp [hl] at h
  | some s =>
    simp only [hl] at h
    cases hp : pyInt s with
    | some n => simp [hp] at h
    | none =>
      simp only [hp] at h
      injection h with h'
      exact ⟨s, h'.symm⟩

lemma recordsOf_runEffects (env : Env) (q : ℤ) (img : Img) :
    recordsOf (runEffects env q img) = [] := by
  by_cases hk : resolveKeepOriginal env.metadata <;>
    simp [runEffects, stdEffects, stdPut, origEffect, recordsOf, hk]

lemma variantPuts_runEffects (env : Env) (q : ℤ) (img : Img) :
    variantPuts (runEffects env q img) = runEffects env q img := by
  by_cases hk : resolveKeepOriginal env.metadata <;>
    simp [runEffects, stdEffects, stdPut, origEffect, variantPuts, hk]

lemma putRecord_not_mem_runEffects (env : Env) (q : ℤ) (img : Img)
    (item : UsageRecord) : Effect.putRecord item ∉ runEffects env q img := by
  by_cases hk : resolveKeepOriginal env.metadata <;>
    simp [runEffects, stdEffects, stdPut, origEffect, hk]

lemma sumBytes_run (env : Env) (q : ℤ) (img : Img) (r : UsageRecord) :
    sumBytes (runEffects env q img ++ [Effect.putRecord r]) = runTotal env q img := by
  by_cases hk : resolveKeepOriginal env.metadata <;>
    simp [sumBytes, effectSizes, runEffects, stdEffects, stdPut, origEffect,
      runTotal, stdTotal, hk] <;> omega

lemma recordsOf_run_append (env : Env) (q : ℤ) (img : Img) (r : UsageRecord) :
    recordsOf (runEffects env q img ++ [Effect.putRecord r]) = [r] := by
  by_cases hk : resolveKeepOriginal env.metadata <;>
    simp [recordsOf, runEffects, stdEffects, stdPut, origEffect, hk]

/-! ## C1 — the produced variant set -/

/-- C1: on a run whose quality resolves and whose source decodes, the
variant writes are exactly the three standard responsive variants — in
order `thumbnails` (150×150 box), `medium` (800×800), `large`
(1920×1920) — plus the `original_res` variant exactly when the
keep-original option resolves to true. -/
theorem c1_exact_variant_set (env : Env) (q : ℤ) (img : Img)
    (hq : resolveQuality env.metadata = Except.ok q)
    (hd : env.decode env.payload = some img) :
    variantPuts (lambda_handler env).1 =
      [stdPut env q img "thumbnails" 150 150,
       stdPut env q img "medium" 800 800,
       stdPut env q img "large" 1920 1920] ++
        (if resolveKeepOriginal env.metadata then [origEffect env q img] else []) := by
  rw [lambda_handler_eq env q img hq hd]
  by_cases h0 : env.payload.length = 0 <;>
    by_cases hk : resolveKeepOriginal env.metadata <;>
      simp [h0, hk, variantPuts, runEffects, stdEffects, stdPut, origEffect,
        List.filter_append]

/-- C1 witness: the theorem applied at the concrete run `envC1`. -/
theorem c1_exact_variant_set_witness :
    variantPuts (lambda_handler envC1).1 =
      [stdPut envC1 80 demoImg "thumbnails" 150 150,
       stdPut envC1 80 demoImg "medium" 800 800,
       stdPut envC1 80 demoImg "large" 1920 1920] ++
        (if resolveKeepOriginal envC1.metadata then [origEffect envC1 80 demoImg]
         else []) :=
  c1_exact_variant_set envC1 80 demoImg rfl rfl

/-! ## C5 — failure aborts the pipeline -/

/-- C5: an error outcome is re-signalled (the outcome IS the error; the
`except` block re-raises) and no usage record was emitted on the way; in
particular an undecodable source produces no storage effect at all and
fails the invocation. -/
theorem c5_failure_aborts (env : Env) :
    (∀ e, (lambda_handler env).2 = Except.error e →
      recordsOf (lambda_handler env).1 = []) ∧
    (env.decode env.payload = none →
      (lambda_handler env).1 = [] ∧
        (lambda_handler env).2 = Except.error PyErr.unidentifiedImage ∨
      (lambda_handler env).1 = [] ∧
        ∃ s, (lambda_handler env).2 = Except.error (PyErr.valueError s)) := by
  cases hrq : resolveQuality env.metadata with
  | error e0 =>
    obtain ⟨s, rfl⟩ := resolveQuality_error env.metadata e0 hrq
    constructor
    · intro e _
      simp [lambda_handler, hrq, recordsOf]
    · intro _
      right
      exact ⟨by simp [lambda_handler, hrq], s, by simp [lambda_handler, hrq]⟩
  | ok q =>
    cases hd : env.decode env.payload with
    | none =>
      constructor
      · intro e _
        simp [lambda_handler, hrq, hd, recordsOf]
      · intro _
        left
        exact ⟨by simp [lambda_handler, hrq, hd], by simp [lambda_handler, hrq, hd]⟩
    | some img =>
      constructor
      · intro e he
        rw [lambda_handler_eq env q img hrq hd] at he ⊢
        by_cases h0 : env.payload.length = 0
        · rw [if_pos h0]
          exact recordsOf_runEffects env q img
        · rw [if_neg h0] at he
          simp at he
      · intro hnone
        exact absurd hnone (by simp)

/-- C5 witness: the theorem applied at a run whose one-byte-short payload
fails to decode. -/
theorem c5_failure_aborts_witness :
    (lambda_handler
        { key := "bad.png", metadata := [], payload := [],
          decode := demoDecode, encode := demoEncode,
          imageId := "c5-id", elapsedMs := 1, timestamp := 0 }).1 = [] ∧
      (lambda_handler
        { key := "bad.png", metadata := [], payload := [],
          decode := demoDecode, encode := demoEncode,
          imageId := "c5-id", elapsedMs := 1, timestamp := 0 }).2 =
        Except.error PyErr.unidentifiedImage ∨
    (lambda_handler
        { key := "bad.png", metadata := [], payload := [],
          decode := demoDecode, encode := demoEncode,
          imageId := "c5-id", elapsedMs := 1, timestamp := 0 }).1 = [] ∧
      ∃ s, (lambda_handler
        { key := "bad.png", metadata := [], payload := [],
          decode := demoDecode, encode := demoEncode,
          imageId := "c5-id", elapsedMs := 1, timestamp := 0 }).2 =
        Except.error (PyErr.valueError s) :=
  (c5_failure_aborts _).2 rfl

/-! ## C10 — the record append is the final storage effect -/

/-- C10: a persisted usage record only ever exists for a successful run,
and in that case the trace is exactly the variant writes followed by the
single record append — so the record append is the final storage effect
and every variant of the run was written before it. -/
theorem c10_record_is_final_effect (env : Env) (tr : List Effect)
    (st : Except PyErr ℕ) (item : UsageRecord)
    (h : lambda_handler env = (tr, st)) (hm : Effect.putRecord item ∈ tr) :
    st = Except.ok 200 ∧
      ∃ q img, resolveQuality env.metadata = Except.ok q ∧
        env.decode env.payload = some img ∧
        tr = runEffects env q img ++ [Effect.putRecord item] := by
  cases hrq : resolveQuality env.metadata with
  | error e0 =>
    rw [show lambda_handler env = ([], Except.error e0) by
          simp [lambda_handler, hrq], Prod.mk.injEq] at h
    obtain ⟨h1, -⟩ := h
    rw [← h1] at hm
    simp at hm
  | ok q =>
    cases hd : env.decode env.payload with
    | none =>
      rw [show lambda_handler env = ([], Except.error PyErr.unidentifiedImage) by
            simp [lambda_handler, hrq, hd], Prod.mk.injEq] at h
      obtain ⟨h1, -⟩ := h
      rw [← h1] at hm
      simp at hm
    | some img =>
      rw [lambda_handler_eq env q img hrq hd] at h
      by_cases h0 : env.payload.length = 0
      · rw [if_pos h0, Prod.mk.injEq] at h
        obtain ⟨h1, -⟩ := h
        rw [← h1] at hm
        exact absurd hm (putRecord_not_mem_runEffects env q img item)
      · rw [if_neg h0, Prod.mk.injEq] at h
        obtain ⟨h1, h2⟩ := h
        refine ⟨h2.symm, q, img, rfl, rfl, ?_⟩
        rw [← h1] at hm ⊢
        rcases List.mem_append.mp hm with hin | hin
        · exact absurd hin (putRecord_not_mem_runEffects env q img item)
        · rw [List.mem_singleton.mp hin]

/-- C10 witness: the theorem applied at the concrete run `envC10`, whose
trace is the four variant writes followed by the record append. -/
theorem c10_record_is_final_effect_witness :
    (Except.ok 200 : Except PyErr ℕ) = Except.ok 200 ∧
      ∃ q img, resolveQuality envC10.metadata = Except.ok q ∧
        envC10.decode envC10.payload = some img ∧
        runEffects envC10 80 demoImg ++
            [Effect.putRecord (theRecord envC10 80 demoImg)] =
          runEffects envC10 q img ++
            [Effect.putRecord (theRecord envC10 80 demoImg)] :=
  c10_record_is_final_effect envC10 _ _ _
    (by rw [lambda_handler_eq envC10 80 demoImg rfl rfl]; simp [envC10])
    (by simp)

/-! ## C3 — the recorded totals come from the exact byte sum -/

/-- C3: for every successful run, the usage record's totals are computed
from the exact sum of the byte lengths of ALL variants written in that run
(the three standard ones plus, when produced, `original_res`):
`total_output_kb` is that exact sum scaled to KB and `savings_percent` is
the savings formula evaluated at that exact sum, both computed before the
record is appended. -/
theorem c3_totals_from_exact_sum (env : Env) (tr : List Effect)
    (item : UsageRecord)
    (h : lambda_handler env = (tr, Except.ok 200)) (hm : item ∈ recordsOf tr) :
    item.total_output_kb = round2 ((sumBytes tr : ℚ) / 1024) ∧
      item.savings_percent =
        round2 ((((env.payload.length : ℚ) - (sumBytes tr : ℚ)) /
          (env.payload.length : ℚ)) * 100) := by
  obtain ⟨q, img, hq, hd, h0⟩ := handler_ok_inv env tr 200 h
  rw [lambda_handler_eq env q img hq hd, if_neg h0, Prod.mk.injEq] at h
  obtain ⟨h1, -⟩ := h
  have hitem : item = theRecord env q img := by
    rw [← h1, recordsOf_run_append] at hm
    exact List.mem_singleton.mp hm
  have hsum : sumBytes tr = runTotal env q img := by
    rw [← h1]
    exact sumBytes_run env q img (theRecord env q img)
  rw [hitem, hsum]
  exact ⟨rfl, rfl⟩

/-- C3 witness: the theorem applied at the concrete run `envC3`. -/
theorem c3_totals_from_exact_sum_witness :
    (theRecord envC3 90 demoImg).total_output_kb =
      round2 ((sumBytes (runEffects envC3 90 demoImg ++
        [Effect.putRecord (theRecord envC3 90 demoImg)]) : ℚ) / 1024) ∧
      (theRecord envC3 90 demoImg).savings_percent =
        round2 ((((envC3.payload.length : ℚ) -
          (sumBytes (runEffects envC3 90 demoImg ++
            [Effect.putRecord (theRecord envC3 90 demoImg)]) : ℚ)) /
          (envC3.payload.length : ℚ)) * 100) :=
  c3_totals_from_exact_sum envC3 _ _
    (by rw [lambda_handler_eq envC3 90 demoImg rfl rfl]; simp [envC3])
    (by rw [recordsOf_run_append]; exact List.mem_singleton.mpr rfl)

/-! ## C4 — the savings percentage -/

lemma savingsPct_sign (orig total : ℚ) (h : 0 < orig) :
    (savingsPct orig total < 0 ↔ orig < total) ∧
    (savingsPct orig total = 0 ↔ orig = total) ∧
    (0 < savingsPct orig total ↔ total < orig) := by
  have h100 : (0 : ℚ) < 100 / orig := by positivity
  have hEq : savingsPct orig total = (orig - total) * (100 / orig) := by
    unfold savingsPct; ring
  rw [hEq]
  refine ⟨?_, ?_, ?_⟩
  · rw [mul_neg_iff]
    constructor
    · rintro (⟨-, hb⟩ | ⟨ha, -⟩)
      · exact absurd hb (asymm h100)
      · linarith
    · intro hlt
      exact Or.inr ⟨by linarith, h100⟩
  · rw [mul_eq_zero]
    constructor
    · rintro (ha | hb)
      · linarith
      · exact absurd hb (ne_of_gt h100)
    · intro heq
      exact Or.inl (by linarith)
  · rw [mul_pos_iff]
    constructor
    · rintro (⟨ha, -⟩ | ⟨-, hb⟩)
      · linarith
      · exact absurd hb (asymm h100)
    · intro hlt
      exact Or.inl ⟨by linarith, h100⟩

/-- C4, amended: the recorded `savings_percent` equals
`round2 (savingsPct original total)` with `total` the exact byte sum of
the run's variants, and the UNROUNDED percentage is negative/zero/positive
exactly as `total` exceeds/equals/undercuts the original size.  (After
rounding to 2 decimal places the recorded value can be 0 even though the
sizes differ — see the counterexample.) -/
theorem c4_savings_sign (env : Env) (tr : List Effect) (item : UsageRecord)
    (h : lambda_handler env = (tr, Except.ok 200)) (hm : item ∈ recordsOf tr) :
    item.savings_percent =
      round2 (savingsPct (env.payload.length : ℚ) (sumBytes tr : ℚ)) ∧
    (savingsPct (env.payload.length : ℚ) (sumBytes tr : ℚ) < 0 ↔
      (env.payload.length : ℚ) < (sumBytes tr : ℚ)) ∧
    (savingsPct (env.payload.length : ℚ) (sumBytes tr : ℚ) = 0 ↔
      (env.payload.length : ℚ) = (sumBytes tr : ℚ)) ∧
    (0 < savingsPct (env.payload.length : ℚ) (sumBytes tr : ℚ) ↔
      (sumBytes tr : ℚ) < (env.payload.length : ℚ)) := by
  obtain ⟨q, img, hq, hd, h0⟩ := handler_ok_inv env tr 200 h
  have horig : (0 : ℚ) < (env.payload.length : ℚ) := by
    exact_mod_cast Nat.pos_of_ne_zero h0
  obtain ⟨hs1, hs2, hs3⟩ :=
    savingsPct_sign (env.payload.length : ℚ) (sumBytes tr : ℚ) horig
  refine ⟨?_, hs1, hs2, hs3⟩
  rw [lambda_handler_eq env q img hq hd, if_neg h0, Prod.mk.injEq] at h
  obtain ⟨h1, -⟩ := h
  have hitem : item = theRecord env q img := by
    rw [← h1, recordsOf_run_append] at hm
    exact List.mem_singleton.mp hm
  have hsum : sumBytes tr = runTotal env q img := by
    rw [← h1]
    exact sumBytes_run env q img (theRecord env q img)
  rw [hitem, hsum, theRecord, savingsPct]

/-- C4 witness: the amended theorem applied at the concrete run `envC4w`. -/
theorem c4_savings_sign_witness :
    (theRecord envC4w 80 demoImg).savings_percent =
      round2 (savingsPct (envC4w.payload.length : ℚ)
        (sumBytes (runEffects envC4w 80 demoImg ++
          [Effect.putRecord (theRecord envC4w 80 demoImg)]) : ℚ)) ∧
    (savingsPct (envC4w.payload.length : ℚ)
        (sumBytes (runEffects envC4w 80 demoImg ++
          [Effect.putRecord (theRecord envC4w 80 demoImg)]) : ℚ) < 0 ↔
      (envC4w.payload.length : ℚ) <
        (sumBytes (runEffects envC4w 80 demoImg ++
          [Effect.putRecord (theRecord envC4w 80 demoImg)]) : ℚ)) ∧
    (savingsPct (envC4w.payload.length : ℚ)
        (sumBytes (runEffects envC4w 80 demoImg ++
          [Effect.putRecord (theRecord envC4w 80 demoImg)]) : ℚ) = 0 ↔
      (envC4w.payload.length : ℚ) =
        (sumBytes (runEffects envC4w 80 demoImg ++
          [Effect.putRecord (theRecord envC4w 80 demoImg)]) : ℚ)) ∧
    (0 < savingsPct (envC4w.payload.length : ℚ)
        (sumBytes (runEffects envC4w 80 demoImg ++
          [Effect.putRecord (theRecord envC4w 80 demoImg)]) : ℚ) ↔
      (sumBytes (runEffects envC4w 80 demoImg ++
          [Effect.putRecord (theRecord envC4w 80 demoImg)]) : ℚ) <
        (envC4w.payload.length : ℚ)) :=
  c4_savings_sign envC4w _ _
    (by rw [lambda_handler_eq envC4w 80 demoImg rfl rfl]; simp [envC4w])
    (by rw [recordsOf_run_append]; exact List.mem_singleton.mpr rfl)

/-- C4, counterexample: in the run `envC4` the total output (20004 bytes)
EXCEEDS the original size (20003 bytes), yet the recorded
`savings_percent` is 0, not negative: the raw percentage
`-100/20003 ≈ -0.005` rounds to 0 at 2 decimal places.  So
`savingsPercent` is neither "negative exactly when
totalOutputSize > originalSize" nor "zero exactly when they are equal". -/
theorem c4_counterexample :
    (lambda_handler envC4).2 = Except.ok 200 ∧
    (recordsOf (lambda_handler envC4).1).map UsageRecord.savings_percent = [0] ∧
    envC4.payload.length < sumBytes (lambda_handler envC4).1 := by
  have hq : resolveQuality envC4.metadata = Except.ok 80 := rfl
  have himg : envC4.decode envC4.payload = some ⟨100, 100⟩ := rfl
  have hlen : envC4.payload.length = 20003 := by
    show (List.replicate 20003 (0 : ℕ)).length = 20003
    rw [List.length_replicate]
  have hbody : ∀ bw bh : ℤ, (stdBody envC4 80 ⟨100, 100⟩ bw bh).length = 6668 := by
    intro bw bh
    show (List.replicate 6668 (0 : ℕ)).length = 6668
    rw [List.length_replicate]
  have htot : runTotal envC4 80 ⟨100, 100⟩ = 20004 := by
    unfold runTotal stdTotal
    rw [show resolveKeepOriginal envC4.metadata = false from rfl,
      if_neg Bool.false_ne_true, hbody, hbody, hbody]
  have h := lambda_handler_eq envC4 80 ⟨100, 100⟩ hq himg
  rw [hlen] at h
  norm_num at h
  rw [h]
  refine ⟨rfl, ?_, ?_⟩
  · rw [recordsOf_run_append]
    simp only [List.map_cons, List.map_nil, theRecord, hlen, htot]
    norm_num [round2, round_eq]
  · rw [sumBytes_run, hlen, htot]
    norm_num

/-! ## C6 — the destination key convention -/

lemma takeWhile_append_cons {p : Char → Bool} (l₁ : List Char) (c : Char)
    (l₂ : List Char) (h : ∀ x ∈ l₁, p x = true) (hc : p c = false) :
    (l₁ ++ c :: l₂).takeWhile p = l₁ := by
  induction l₁ with
  | nil => simp [List.takeWhile_cons, hc]
  | cons a as ih =>
    have ha : p a = true := h a (by simp)
    simp only [List.cons_append, List.takeWhile_cons, ha, if_true]
    rw [ih (fun x hx => h x (by simp [hx]))]

lemma dropWhile_append_cons {p : Char → Bool} (l₁ : List Char) (c : Char)
    (l₂ : List Char) (h : ∀ x ∈ l₁, p x = true) (hc : p c = false) :
    (l₁ ++ c :: l₂).dropWhile p = c :: l₂ := by
  induction l₁ with
  | nil => simp [List.dropWhile_cons, hc]
  | cons a as ih =>
    have ha : p a = true := h a (by simp)
    simp only [List.cons_append, List.dropWhile_cons, ha, if_true]
    exact ih (fun x hx => h x (by simp [hx]))

/-- On a key of the single-dot shape `name.ext`, `split('.')[0]` yields
exactly the name. -/
lemma splitDotHead_single (name ext : List Char) (hn : ∀ x ∈ name, x ≠ '.') :
    splitDotHead (String.mk (name ++ '.' :: ext)) = String.mk name := by
  unfold splitDotHead
  congr 1
  exact takeWhile_append_cons name '.' ext
    (fun x hx => decide_eq_true (hn x hx)) (by decide)

/-- On a key of the single-dot shape `name.ext`, removing the extension
also yields exactly the name. -/
lemma stripExtension_single (name ext : List Char)
    (he : ∀ x ∈ ext, x ≠ '.') :
    stripExtension (String.mk (name ++ '.' :: ext)) = String.mk name := by
  unfold stripExtension
  rw [if_pos (by simp : '.' ∈ (String.mk (name ++ '.' :: ext)).toList)]
  congr 1
  show (((name ++ '.' :: ext).reverse.dropWhile (fun c => c ≠ '.')).drop 1).reverse
    = name
  rw [List.reverse_append, List.reverse_cons, List.append_assoc,
    List.singleton_append,
    dropWhile_append_cons ext.reverse '.' name.reverse
      (fun x hx => decide_eq_true (he x (List.mem_reverse.mp hx))) (by decide)]
  simp

/-- C6, counterexample: for the source key `"a.b.png"` (whose name holds
more than one dot) the variants are written under `{variant}/a.webp` —
`key.split('.')[0]` truncates at the FIRST dot — and not under
`{variant}/a.b.webp` as "the source file identifier with its extension
removed" requires. -/
theorem c6_counterexample :
    effectKeys (lambda_handler envC6).1 =
      ["thumbnails/a.webp", "medium/a.webp", "large/a.webp"] ∧
    stripExtension envC6.key = "a.b" ∧
    effectKeys (lambda_handler envC6).1 ≠
      ["thumbnails/" ++ stripExtension envC6.key ++ ".webp",
       "medium/" ++ stripExtension envC6.key ++ ".webp",
       "large/" ++ stripExtension envC6.key ++ ".webp"] := by
  have h := lambda_handler_eq envC6 80 demoImg rfl rfl
  rw [show envC6.payload.length = 1 from rfl] at h
  norm_num at h
  have hkeys : effectKeys (lambda_handler envC6).1 =
      ["thumbnails/a.webp", "medium/a.webp", "large/a.webp"] := by
    rw [h]
    rw [runEffects, show resolveKeepOriginal envC6.metadata = false from rfl,
      if_neg Bool.false_ne_true]
    simp only [effectKeys, stdEffects, stdPut, List.filterMap_append]
    decide
  refine ⟨hkeys, by decide, ?_⟩
  rw [hkeys]
  decide

/-- C6, amended: every produced variant is written at
`{variantName}/{fileId}.webp` where `fileId` is the part of the source key
BEFORE ITS FIRST DOT (`key.split('.')[0]`); for keys of the single-dot
shape `name.ext` this coincides with removing the extension, but for keys
with more than one dot it truncates at the first dot instead. -/
theorem c6_amended_output_keys (env : Env) (q : ℤ) (img : Img)
    (hq : resolveQuality env.metadata = Except.ok q)
    (hd : env.decode env.payload = some img) :
    effectKeys (lambda_handler env).1 =
      (["thumbnails/" ++ splitDotHead env.key ++ ".webp",
        "medium/" ++ splitDotHead env.key ++ ".webp",
        "large/" ++ splitDotHead env.key ++ ".webp"] ++
        (if resolveKeepOriginal env.metadata then
          ["original_res/" ++ splitDotHead env.key ++ ".webp"] else [])) ∧
    (∀ name ext : List Char, env.key = String.mk (name ++ '.' :: ext) →
      (∀ x ∈ name, x ≠ '.') → (∀ x ∈ ext, x ≠ '.') →
      splitDotHead env.key = stripExtension env.key) := by
  constructor
  · rw [lambda_handler_eq env q img hq hd]
    by_cases h0 : env.payload.length = 0 <;>
      by_cases hk : resolveKeepOriginal env.metadata <;>
        simp [h0, hk, effectKeys, runEffects, stdEffects, stdPut, origEffect,
          List.filterMap_append]
  · rintro name ext hkey hn he
    rw [hkey, splitDotHead_single name ext hn,
      stripExtension_single name ext he]

/-- C6 witness: the amended theorem applied at the concrete single-dot run
`envC1` (key `"holiday.jpg"`). -/
theorem c6_amended_output_keys_witness :
    effectKeys (lambda_handler envC1).1 =
      (["thumbnails/" ++ splitDotHead envC1.key ++ ".webp",
        "medium/" ++ splitDotHead envC1.key ++ ".webp",
        "large/" ++ splitDotHead envC1.key ++ ".webp"] ++
        (if resolveKeepOriginal envC1.metadata then
          ["original_res/" ++ splitDotHead envC1.key ++ ".webp"] else [])) ∧
    (∀ name ext : List Char, envC1.key = String.mk (name ++ '.' :: ext) →
      (∀ x ∈ name, x ≠ '.') → (∀ x ∈ ext, x ≠ '.') →
      splitDotHead envC1.key = stripExtension envC1.key) :=
  c6_amended_output_keys envC1 80 demoImg rfl rfl

/-! ## C7 — the thumbnail computation -/

lemma round_aspect_le {e : ℚ} {k : ℤ → ℚ} {n : ℤ} (h1 : 1 ≤ n)
    (h2 : e ≤ (n : ℚ)) : round_aspect e k ≤ n := by
  unfold round_aspect
  have hc : ⌈e⌉ ≤ n := Int.ceil_le.mpr h2
  have hf : ⌊e⌋ ≤ n := le_trans (Int.floor_le_ceil e) hc
  split
  · exact max_le hf h1
  · exact max_le hc h1

lemma round_aspect_near {e : ℚ} {k : ℤ → ℚ} (he : 0 < e) :
    |((round_aspect e k : ℤ) : ℚ) - e| < 1 := by
  have hceil0 : (0 : ℤ) < ⌈e⌉ := Int.ceil_pos.mpr he
  have hceil1 : (1 : ℤ) ≤ ⌈e⌉ := by omega
  have hfl : |(⌊e⌋ : ℚ) - e| < 1 := by
    rw [abs_sub_lt_iff]
    constructor
    · linarith [Int.floor_le e]
    · linarith [Int.sub_one_lt_floor e]
  have hcl : |(⌈e⌉ : ℚ) - e| < 1 := by
    rw [abs_sub_lt_iff]
    constructor
    · linarith [Int.ceil_lt_add_one e]
    · linarith [Int.le_ceil e]
  unfold round_aspect
  split
  · rcases le_or_lt 1 ⌊e⌋ with hf1 | hf1
    · rw [max_eq_left hf1]
      exact hfl
    · rw [max_eq_right hf1.le]
      have hlt1 : e < 1 := by
        have hfe := Int.lt_floor_add_one e
        have hf0 : ((⌊e⌋ : ℤ) : ℚ) ≤ 0 := by exact_mod_cast by omega
        linarith
      rw [abs_sub_lt_iff]
      constructor
      · push_cast
        linarith
      · push_cast
        linarith
  · rw [max_eq_left hceil1]
    exact hcl

/-- C7: the `thumbnail` size computation (i) leaves the source dimensions
unchanged whenever the bounding box is at least as large as the source in
both dimensions (never upscales — also expressed by the `≤ w`/`≤ h`
conjuncts, which hold in every case), (ii) always fits within the bounding
box, and (iii) preserves the source aspect ratio up to the integer
rounding of one coordinate: `|tx·h − ty·w| < w + h`, i.e.
`|tx/ty − w/h| < (w+h)/(ty·h)`. -/
theorem c7_thumbnail_never_upscales (w h x y : ℤ)
    (hw : 1 ≤ w) (hh : 1 ≤ h) (hx : 1 ≤ x) (hy : 1 ≤ y) :
    ((w ≤ x ∧ h ≤ y) → thumbnail w h x y = (w, h)) ∧
    (thumbnail w h x y).1 ≤ x ∧ (thumbnail w h x y).2 ≤ y ∧
    (thumbnail w h x y).1 ≤ w ∧ (thumbnail w h x y).2 ≤ h ∧
    |(thumbnail w h x y).1 * h - (thumbnail w h x y).2 * w| < w + h := by
  have hwq : (0 : ℚ) < (w : ℚ) := by exact_mod_cast by omega
  have hhq : (0 : ℚ) < (h : ℚ) := by exact_mod_cast by omega
  have hxq : (0 : ℚ) < (x : ℚ) := by exact_mod_cast by omega
  have hyq : (0 : ℚ) < (y : ℚ) := by exact_mod_cast by omega
  by_cases hearly : w ≤ x ∧ h ≤ y
  · rw [thumbnail, if_pos hearly]
    refine ⟨fun _ => rfl, hearly.1, hearly.2, le_refl w, le_refl h, ?_⟩
    rw [mul_comm, sub_self, abs_zero]
    omega
  · rw [thumbnail, if_neg hearly]
    by_cases hbr : (w : ℚ) / h ≤ (x : ℚ) / y
    · -- branch A: the height is the binding dimension, `y` is kept
      rw [if_pos hbr]
      have hA : (w : ℚ) * y ≤ (x : ℚ) * h := (div_le_div_iff₀ hhq hyq).mp hbr
      have hyh : y ≤ h := by
        by_contra hcon
        push_neg at hcon
        have hxw : x < w := by
          rcases not_and_or.mp hearly with hc | hc <;> omega
        have hAi : w * y ≤ x * h := by exact_mod_cast hA
        have p1 : x * h ≤ (w - 1) * h :=
          mul_le_mul_of_nonneg_right (by omega) (by omega)
        have p2 : w * h < w * y :=
          mul_lt_mul_of_pos_left hcon (by omega)
        linarith
      set e : ℚ := (y : ℚ) * ((w : ℚ) / h) with he_def
      have he_eq : e = (y : ℚ) * w / h := by
        rw [he_def, mul_div_assoc]
      have he_pos : 0 < e := by
        rw [he_eq]
        positivity
      have he_le_x : e ≤ (x : ℚ) := by
        rw [he_eq, div_le_iff₀ hhq]
        linarith
      have he_le_w : e ≤ (w : ℚ) := by
        rw [he_eq, div_le_iff₀ hhq]
        have hyhq : (y : ℚ) ≤ (h : ℚ) := by exact_mod_cast hyh
        nlinarith
      set tx : ℤ := round_aspect e (fun n => |(w : ℚ) / h - (n : ℚ) / y|)
        with htx_def
      refine ⟨fun hcon => absurd hcon hearly, ?_, le_refl y, ?_, hyh, ?_⟩
      · show tx ≤ x
        rw [htx_def]
        exact round_aspect_le hx he_le_x
      · show tx ≤ w
        rw [htx_def]
        exact round_aspect_le hw he_le_w
      have hnear : |(tx : ℚ) - e| < 1 := by
        rw [htx_def]
        exact round_aspect_near he_pos
      have heh : e * h = (y : ℚ) * w := by
        rw [he_eq, div_mul_cancel₀]
        exact ne_of_gt hhq
      have hcast : ((tx * h - y * w : ℤ) : ℚ) = ((tx : ℚ) - e) * h := by
        push_cast
        rw [sub_mul, heh]
      have habs : |((tx * h - y * w : ℤ) : ℚ)| < (h : ℚ) := by
        rw [hcast, abs_mul, abs_of_pos hhq]
        calc |(tx : ℚ) - e| * h < 1 * h :=
              mul_lt_mul_of_pos_right hnear hhq
          _ = h := one_mul _
      have : |((tx * h - y * w : ℤ) : ℚ)| < ((w + h : ℤ) : ℚ) := by
        push_cast
        push_cast at habs
        linarith
      rw [← Int.cast_abs] at this
      exact_mod_cast this
    · -- branch B: the width is the binding dimension, `x` is kept
      rw [if_neg hbr]
      have hbr' : (x : ℚ) / y < (w : ℚ) / h := lt_of_not_le hbr
      have hB : (x : ℚ) * h < (w : ℚ) * y := (div_lt_div_iff₀ hyq hhq).mp hbr'
      have hxw : x ≤ w := by
        by_contra hcon
        push_neg at hcon
        have hyh' : y < h := by
          rcases not_and_or.mp hearly with hc | hc <;> omega
        have hBi : x * h < w * y := by exact_mod_cast hB
        have p1 : w * y ≤ w * (h - 1) :=
          mul_le_mul_of_nonneg_left (by omega) (by omega)
        have p2 : (w + 1) * h ≤ x * h :=
          mul_le_mul_of_nonneg_right (by omega) (by omega)
        linarith
      set e : ℚ := (x : ℚ) / ((w : ℚ) / h) with he_def
      have he_eq : e = (x : ℚ) * h / w := by
        rw [he_def, div_div_eq_mul_div]
      have he_pos : 0 < e := by
        rw [he_eq]
        positivity
      have he_le_y : e ≤ (y : ℚ) := by
        rw [he_eq, div_le_iff₀ hwq]
        nlinarith
      have he_le_h : e ≤ (h : ℚ) := by
        rw [he_eq, div_le_iff₀ hwq]
        have hxwq : (x : ℚ) ≤ (w : ℚ) := by exact_mod_cast hxw
        nlinarith
      set ty : ℤ := round_aspect e
        (fun n => if n = 0 then 0 else |(w : ℚ) / h - (x : ℚ) / n|)
        with hty_def
      refine ⟨fun hcon => absurd hcon hearly, le_refl x, ?_, hxw, ?_, ?_⟩
      · show ty ≤ y
        rw [hty_def]
        exact round_aspect_le hy he_le_y
      · show ty ≤ h
        rw [hty_def]
        exact round_aspect_le hh he_le_h
      have hnear : |(ty : ℚ) - e| < 1 := by
        rw [hty_def]
        exact round_aspect_near he_pos
      have hew : e * w = (x : ℚ) * h := by
        rw [he_eq, div_mul_cancel₀]
        exact ne_of_gt hwq
      have hcast : ((x * h - ty * w : ℤ) : ℚ) = (e - (ty : ℚ)) * w := by
        push_cast
        rw [sub_mul, hew]
      have habs : |((x * h - ty * w : ℤ) : ℚ)| < (w : ℚ) := by
        rw [hcast, abs_mul, abs_of_pos hwq, abs_sub_comm]
        calc |(ty : ℚ) - e| * w < 1 * w :=
              mul_lt_mul_of_pos_right hnear hwq
          _ = w := one_mul _
      have : |((x * h - ty * w : ℤ) : ℚ)| < ((w + h : ℤ) : ℚ) := by
        push_cast
        push_cast at habs
        linarith
      rw [← Int.cast_abs] at this
      exact_mod_cast this

/-- C7 witness: the theorem applied at a 1024×768 source — the 1920×1920
box leaves it untouched; the bounds hold for the 150×150 box, whose
computed size is 150×113. -/
theorem c7_thumbnail_never_upscales_witness :
    (((1024 : ℤ) ≤ 1920 ∧ (768 : ℤ) ≤ 1920) →
      thumbnail 1024 768 1920 1920 = (1024, 768)) ∧
    (thumbnail 1024 768 1920 1920).1 ≤ 1920 ∧
    (thumbnail 1024 768 1920 1920).2 ≤ 1920 ∧
    (thumbnail 1024 768 1920 1920).1 ≤ 1024 ∧
    (thumbnail 1024 768 1920 1920).2 ≤ 768 ∧
    |(thumbnail 1024 768 1920 1920).1 * 768 -
      (thumbnail 1024 768 1920 1920).2 * 1024| < 1024 + 768 :=
  c7_thumbnail_never_upscales 1024 768 1920 1920
    (by norm_num) (by norm_num) (by norm_num) (by norm_num)

/-! ## C9 — the savings division is guarded by decoding -/

/-- C9: with a decoder that rejects every zero-length payload (as PIL's
`Image.open` does — a zero-byte stream has no image header), the
`ZeroDivisionError` branch of the savings computation at line 88 is
unreachable: whenever that division executes, `original_size > 0`. -/
theorem c9_zero_division_unreachable (env : Env)
    (hdec : ∀ bs : List ℕ, bs.length = 0 → env.decode bs = none) :
    (lambda_handler env).2 ≠ Except.error PyErr.zeroDivision := by
  cases hrq : resolveQuality env.metadata with
  | error e =>
    obtain ⟨s, rfl⟩ := resolveQuality_error env.metadata e hrq
    simp [lambda_handler, hrq]
  | ok q =>
    cases hd : env.decode env.payload with
    | none => simp [lambda_handler, hrq, hd]
    | some img =>
      have hlen : env.payload.length ≠ 0 := by
        intro h0
        rw [hdec env.payload h0] at hd
        exact absurd hd (by simp)
      rw [lambda_handler_eq env q img hrq hd, if_neg hlen]
      simp

/-- C9 witness: the theorem applied at a concrete run with the
empty-rejecting decoder.  (`demoDecode` rejects exactly the zero-length
payloads.) -/
theorem c9_zero_division_unreachable_witness :
    (lambda_handler
        { key := "z.png", metadata := [], payload := [9],
          decode := demoDecode, encode := demoEncode,
          imageId := "c9-id", elapsedMs := 1, timestamp := 0 }).2 ≠
      Except.error PyErr.zeroDivision :=
  c9_zero_division_unreachable _ (fun bs hb => by simp [demoDecode, hb])
